import Mathlib

/-!
Verification development for the linear-programming repository:
a shallow embedding of the simplex engine (`src/lib/simplex-solver.ts`),
the sensitivity analysis (`src/lib/sensitivity-analysis.ts`) and the
two-variable graphical solver (`src/components/problem-solver.tsx`,
`computeGraphData` and its helpers) over exact rationals, together with
theorems settling the frozen behavioural claims.

Conventions of the embedding:
* JavaScript `number` is modelled as `ℚ`; the fixed tolerances of the source
  (`1e-10`, `1e-8`, `1e-6`) become the corresponding rational literals.
* Out-of-range array reads (which yield `undefined` in the source) are
  totalised with `List.getD` defaults; every claim is settled on inputs where
  the source never reads out of range, so the defaults are never observed.
* The source mutates the tableau object most recently pushed onto the
  iteration history (flags and pivot annotations are assigned in place).
  The loop `solveLoop` below reproduces the observable result: the values
  stored in the returned history are the fully annotated ones, and
  `createInitialTableau` / `pivotOperation` give the values as first created,
  so mutation-after-creation is expressible as a difference between the two.
* The source's `objectiveRow` / `rhsColumn` fields are aliases of the last
  matrix row / last column computed at construction time and never mutated
  afterwards, so they are modelled as the functions `objectiveRow` and
  `rhsColumn` of the matrix.
-/

set_option allowUnsafeReducibility true in
attribute [semireducible] Rat.add Rat.mul Rat.inv Rat.sub

/-- The empty string, the JS-falsy fallback trigger of `basicVariables[i] || ...`. -/
def emptyName : String := ""

/-- The letter used to synthesize slack-variable names `s1`, `s2`, ... -/
def sLetter : String := "s"

/-- Slack name `s{i+1}`, as in `convertToStandardForm` and the sensitivity fallback. -/
def slackName (i : Nat) : String := sLetter ++ toString (i + 1)

/-- Decision-variable name used in concrete runs. -/
def nameX1 : String := "x1"

/-- Decision-variable name used in concrete runs. -/
def nameX2 : String := "x2"

/-- The first slack variable's name. -/
def slackS1 : String := "s1"

namespace SimplexSolver

/-- `SimplexTableau` (src/lib/simplex-solver.ts, lines 3-16).  The derived
views `objectiveRow`/`rhsColumn` are modelled as functions of `tableau`. -/
structure SimplexTableau where
  tableau : List (List ℚ)
  basicVariables : List String
  nonBasicVariables : List String
  iteration : Nat
  isOptimal : Bool
  isUnbounded : Bool
  pivotRow : Option Nat
  pivotColumn : Option Nat
  enteringVariable : Option String
  leavingVariable : Option String
deriving DecidableEq

/-- A tableau with no data; stands in for `undefined` where the source
would read a missing element. -/
def defaultTableau : SimplexTableau :=
  { tableau := [], basicVariables := [], nonBasicVariables := [],
    iteration := 0, isOptimal := false, isUnbounded := false,
    pivotRow := none, pivotColumn := none,
    enteringVariable := none, leavingVariable := none }

/-- `SimplexSolution` (lines 18-26); the free-text `steps` log carries no
algorithmic content and is omitted. -/
structure SimplexSolution where
  isOptimal : Bool
  isUnbounded : Bool
  isFeasible : Bool
  optimalValue : ℚ
  optimalSolution : List (String × ℚ)
  iterations : List SimplexTableau
deriving DecidableEq

/-- `StandardForm` (lines 37-46). -/
structure StandardForm where
  objectiveCoefficients : List ℚ
  constraintMatrix : List (List ℚ)
  rhsVector : List ℚ
  varNames : List String
  originalVariables : List String
  slackVariables : List String
  numOriginalVars : Nat
  numConstraints : Nat
deriving DecidableEq

/-- `tableau[i]`, totalised. -/
def rowAt (m : List (List ℚ)) (i : Nat) : List ℚ := m.getD i []

/-- `tableau[i][j]`, totalised. -/
def entryAt (m : List (List ℚ)) (i j : Nat) : ℚ := (rowAt m i).getD j 0

/-- The view `tableau[tableau.length - 1]` stored as `objectiveRow`. -/
def objectiveRow (t : SimplexTableau) : List ℚ := t.tableau.getLastD []

/-- The view `tableau.map(row => row[row.length - 1])` stored as `rhsColumn`. -/
def rhsColumn (t : SimplexTableau) : List ℚ := t.tableau.map (fun row => row.getLastD 0)

/-- `convertToStandardForm` (lines 198-232). -/
def convertToStandardForm (objectiveCoefficients : List ℚ)
    (constraintMatrix : List (List ℚ)) (rhsVector : List ℚ)
    (isMaximization : Bool) (varNames : List String) : StandardForm :=
  let objCoeffs : List ℚ :=
    if isMaximization then objectiveCoefficients
    else objectiveCoefficients.map (fun c => -c)
  let numConstraints := constraintMatrix.length
  let numOriginalVars := objectiveCoefficients.length
  let extendedMatrix := constraintMatrix.enum.map (fun p =>
    p.2 ++ (List.range numConstraints).map (fun j => if p.1 = j then (1 : ℚ) else 0))
  let extendedObjCoeffs := objCoeffs ++ List.replicate numConstraints (0 : ℚ)
  let slackVariables := (List.range numConstraints).map slackName
  let allVariables := varNames ++ slackVariables
  { objectiveCoefficients := extendedObjCoeffs
    constraintMatrix := extendedMatrix
    rhsVector := rhsVector
    varNames := allVariables
    originalVariables := varNames
    slackVariables := slackVariables
    numOriginalVars := numOriginalVars
    numConstraints := numConstraints }

/-- `createInitialTableau` (lines 234-266). -/
def createInitialTableau (sf : StandardForm) : SimplexTableau :=
  let tableau :=
    sf.constraintMatrix.enum.map (fun p => p.2 ++ [sf.rhsVector.getD p.1 0])
      ++ [sf.objectiveCoefficients.map (fun c => -c) ++ [(0 : ℚ)]]
  { tableau := tableau
    basicVariables := sf.slackVariables
    nonBasicVariables := sf.varNames.take sf.numOriginalVars
    iteration := 0
    isOptimal := false
    isUnbounded := false
    pivotRow := none
    pivotColumn := none
    enteringVariable := none
    leavingVariable := none }

/-- The scanning loop of `findEnteringVariable` (lines 276-281), carrying
`(minValue, enteringColumn)`. -/
def findEnteringAux (obj : List ℚ) : List Nat → ℚ → Int → Int
  | [], _, best => best
  | j :: rest, minValue, best =>
    if obj.getD j 0 < minValue then
      findEnteringAux obj rest (obj.getD j 0) (Int.ofNat j)
    else
      findEnteringAux obj rest minValue best

/-- `findEnteringVariable` (lines 268-284): scan the first
`nonBasicVariables.length` columns of the objective row for the most
negative entry; `-1` if none is negative. -/
def findEnteringVariable (t : SimplexTableau) : Int :=
  findEnteringAux (objectiveRow t) (List.range t.nonBasicVariables.length) 0 (-1)

/-- The minimum-ratio loop of `findLeavingVariable` (lines 292-301), carrying
`(minRatio, leavingRow)`; `none` stands for the initial `Infinity` (against
which every ratio of the first positive-entry row compares below), and the
source's single `if (ratio < minRatio)` is split over the two `Option`
shapes. -/
def findLeavingAux (m : List (List ℚ)) (rhs : List ℚ) (enteringColumn : Nat) :
    List Nat → Option ℚ → Int → Int
  | [], _, best => best
  | i :: rest, none, best =>
    if 0 < entryAt m i enteringColumn then
      findLeavingAux m rhs enteringColumn rest
        (some (rhs.getD i 0 / entryAt m i enteringColumn)) (Int.ofNat i)
    else findLeavingAux m rhs enteringColumn rest none best
  | i :: rest, some r, best =>
    if 0 < entryAt m i enteringColumn then
      if rhs.getD i 0 / entryAt m i enteringColumn < r then
        findLeavingAux m rhs enteringColumn rest
          (some (rhs.getD i 0 / entryAt m i enteringColumn)) (Int.ofNat i)
      else findLeavingAux m rhs enteringColumn rest (some r) best
    else findLeavingAux m rhs enteringColumn rest (some r) best

/-- `findLeavingVariable` (lines 286-304). -/
def findLeavingVariable (t : SimplexTableau) (enteringColumn : Nat) : Int :=
  findLeavingAux t.tableau (rhsColumn t) enteringColumn
    (List.range ((rhsColumn t).length - 1)) none (-1)

/-- `pivotOperation` (lines 306-348). -/
def pivotOperation (t : SimplexTableau) (pivotRow pivotColumn : Nat) : SimplexTableau :=
  let m := t.tableau
  let pivotElement := entryAt m pivotRow pivotColumn
  let normalizedPivotRow := (rowAt m pivotRow).map (fun x => x / pivotElement)
  let newTableau := (List.range m.length).map (fun i =>
    if i = pivotRow then normalizedPivotRow
    else
      let row := rowAt m i
      let multiplier := row.getD pivotColumn 0
      (List.range row.length).map (fun j =>
        row.getD j 0 - multiplier * normalizedPivotRow.getD j 0))
  { tableau := newTableau
    basicVariables := t.basicVariables.set pivotRow (t.nonBasicVariables.getD pivotColumn emptyName)
    nonBasicVariables := t.nonBasicVariables.set pivotColumn (t.basicVariables.getD pivotRow emptyName)
    iteration := t.iteration + 1
    isOptimal := false
    isUnbounded := false
    pivotRow := some pivotRow
    pivotColumn := some pivotColumn
    enteringVariable := none
    leavingVariable := none }

/-- The private `isOptimal` check (lines 350-359): every objective-row entry
except the RHS cell is at least `-1e-10`. -/
def isOptimalCheck (t : SimplexTableau) : Bool :=
  (objectiveRow t).dropLast.all (fun x => decide (-(1 / 10000000000 : ℚ) ≤ x))

/-- The in-place annotation `enteringVariable`/`pivotColumn` (lines 118-119). -/
def annotateEntering (t : SimplexTableau) (e : Nat) : SimplexTableau :=
  { t with enteringVariable := t.nonBasicVariables[e]?, pivotColumn := some e }

/-- The in-place annotation `leavingVariable`/`pivotRow` (lines 141-142). -/
def annotateLeaving (t : SimplexTableau) (l : Nat) : SimplexTableau :=
  { t with leavingVariable := t.basicVariables[l]?, pivotRow := some l }

/-- `extractSolution` (lines 361-385): value map over the original variables
and the optimal objective value. -/
def extractSolution (t : SimplexTableau) (originalVariables : List String)
    (isMaximization : Bool) : ℚ × List (String × ℚ) :=
  let init := originalVariables.map (fun v => (v, (0 : ℚ)))
  let solution := t.basicVariables.enum.foldl (fun acc p =>
    if originalVariables.contains p.2 then
      acc.map (fun q => if q.1 = p.2 then (q.1, (rhsColumn t).getD p.1 0) else q)
    else acc) init
  let raw := (rhsColumn t).getLastD 0
  (if isMaximization then raw else -raw, solution)

/-- The `while` loop of `solve` (lines 104-176).  `fuel` is
`maxIterations - iterationCount` (the cap is 50), `count` is
`iterationCount`.  Returns the iteration history (whose elements are the
annotated tableau values observable in the returned solution), the final
tableau and the final iteration count. -/
def solveLoop : Nat → Nat → SimplexTableau → List SimplexTableau × SimplexTableau × Nat
  | 0, count, cur => ([cur], cur, count)
  | fuel + 1, count, cur =>
    if cur.isOptimal || cur.isUnbounded then ([cur], cur, count)
    else
      let count' := count + 1
      let e := findEnteringVariable cur
      if e = -1 then
        let cur' := { cur with isOptimal := true }
        ([cur'], cur', count')
      else
        let en := e.toNat
        let cur₁ := annotateEntering cur en
        let l := findLeavingVariable cur₁ en
        if l = -1 then
          let cur₂ := { cur₁ with isUnbounded := true }
          ([cur₂], cur₂, count')
        else
          let ln := l.toNat
          let cur₂ := annotateLeaving cur₁ ln
          let newT := pivotOperation cur₂ ln en
          let newT₁ := { newT with iteration := count' }
          let newT₂ := if isOptimalCheck newT₁ then { newT₁ with isOptimal := true } else newT₁
          let r := solveLoop fuel count' newT₂
          (cur₂ :: r.1, r.2)

/-- `SimplexSolver.solve` (lines 64-192). -/
def solve (objectiveCoefficients : List ℚ) (constraintMatrix : List (List ℚ))
    (rhsVector : List ℚ) (isMaximization : Bool) (varNames : List String) :
    SimplexSolution :=
  let sf := convertToStandardForm objectiveCoefficients constraintMatrix rhsVector
    isMaximization varNames
  let t0 := createInitialTableau sf
  let r := solveLoop 50 0 t0
  let ex := extractSolution r.2.1 sf.originalVariables isMaximization
  { isOptimal := r.2.1.isOptimal
    isUnbounded := r.2.1.isUnbounded
    isFeasible := true
    optimalValue := ex.1
    optimalSolution := ex.2
    iterations := r.1 }

/-- Both terminal flags raised at once would be contradictory; `true` when at
most one of them is set. -/
def flagsOK (t : SimplexTableau) : Bool := !(t.isOptimal && t.isUnbounded)

/-- Equality of the never-mutated payload of a tableau: the matrix and the
two variable lists (the remaining fields are the in-place annotations). -/
def coreEq (a b : SimplexTableau) : Prop :=
  a.tableau = b.tableau ∧ a.basicVariables = b.basicVariables ∧
    a.nonBasicVariables = b.nonBasicVariables

/-- Each tableau of the history is, up to its annotation fields, exactly the
`pivotOperation` of its predecessor at the predecessor's recorded pivot
position. -/
def chainFrom : SimplexTableau → List SimplexTableau → Prop
  | _, [] => True
  | prev, nxt :: rest =>
    (∃ r c, prev.pivotRow = some r ∧ prev.pivotColumn = some c ∧
      coreEq nxt (pivotOperation prev r c)) ∧ chainFrom nxt rest

/-- Every row of the matrix has length `L` and ends in a zero: the invariant
of a tableau whose right-hand-side column is identically zero. -/
def zeroLastColumn (L : Nat) (m : List (List ℚ)) : Prop :=
  ∀ row ∈ m, row.length = L ∧ row.getLastD 0 = 0

/-- A small well-formed tableau used to instantiate hypothesis-bearing
theorems on concrete data. -/
def sampleTableau : SimplexTableau :=
  { tableau := [[2, 1, 4], [1, 3, 6]]
    basicVariables := [slackS1]
    nonBasicVariables := [nameX1]
    iteration := 0
    isOptimal := false
    isUnbounded := false
    pivotRow := none
    pivotColumn := none
    enteringVariable := none
    leavingVariable := none }

/-- A one-tableau solution used to instantiate the sensitivity theorem on
concrete data. -/
def sampleSolution : SimplexSolution :=
  { isOptimal := true
    isUnbounded := false
    isFeasible := true
    optimalValue := 0
    optimalSolution := []
    iterations := [sampleTableau] }

end SimplexSolver

/-- `SensitivityResult` (src/lib/sensitivity-analysis.ts, lines 3-6); the
`{constraint, price}` and `{variable, cost}` records are modelled as pairs. -/
structure SensitivityResult where
  shadowPrices : List (String × ℚ)
  reducedCosts : List (String × ℚ)
deriving DecidableEq

/-- `performSensitivityAnalysis` (src/lib/sensitivity-analysis.ts, lines 8-27). -/
def performSensitivityAnalysis (solution : SimplexSolver.SimplexSolution) : SensitivityResult :=
  let finalTableau := solution.iterations.getLastD SimplexSolver.defaultTableau
  let initialTableau := solution.iterations.getD 0 SimplexSolver.defaultTableau
  let numOriginalVars := initialTableau.nonBasicVariables.length
  let numConstraints := initialTableau.basicVariables.length
  let shadowPrices := (List.range numConstraints).map (fun i =>
    let column := numOriginalVars + i
    let price := -((SimplexSolver.objectiveRow finalTableau).getD column 0)
    let name := initialTableau.basicVariables.getD i emptyName
    (if name = emptyName then slackName i else name, price))
  let reducedCosts := (List.range numOriginalVars).map (fun i =>
    (initialTableau.nonBasicVariables.getD i emptyName,
      (SimplexSolver.objectiveRow finalTableau).getD i 0))
  { shadowPrices := shadowPrices, reducedCosts := reducedCosts }

namespace Graphical

/-- A 2-D point of the graphical solver. -/
abbrev Point : Type := ℚ × ℚ

/-- The relational operator string `≤`. -/
def leOp : String := "≤"

/-- The relational operator string `≥`. -/
def geOp : String := "≥"

/-- A constraint as consumed by `computeGraphData`:
`{coefficients, operator, rhs}`. -/
structure GConstraint where
  coefficients : List ℚ
  operator : String
  rhs : ℚ
deriving DecidableEq

/-- One conjunct of the feasibility filter (problem-solver.tsx, lines 393-398):
the constraint's operator tested against its right-hand side with
tolerance `1e-8`. -/
def satisfiesConstraint (c : GConstraint) (p : Point) : Bool :=
  let a := c.coefficients.getD 0 0
  let b := c.coefficients.getD 1 0
  let lhs := a * p.1 + b * p.2
  if c.operator = leOp then decide (lhs ≤ c.rhs + 1 / 100000000)
  else if c.operator = geOp then decide (c.rhs - 1 / 100000000 ≤ lhs)
  else decide (|lhs - c.rhs| ≤ 1 / 100000000)

/-- The propositional reading of `satisfiesConstraint`. -/
def satisfiesConstraintP (c : GConstraint) (p : Point) : Prop :=
  let a := c.coefficients.getD 0 0
  let b := c.coefficients.getD 1 0
  let lhs := a * p.1 + b * p.2
  if c.operator = leOp then lhs ≤ c.rhs + 1 / 100000000
  else if c.operator = geOp then c.rhs - 1 / 100000000 ≤ lhs
  else |lhs - c.rhs| ≤ 1 / 100000000

/-- The full feasibility filter (lines 392-400): every constraint satisfied
and both coordinates non-negative. -/
def feasibleFilter (cs : List GConstraint) (p : Point) : Bool :=
  cs.all (fun c => satisfiesConstraint c p) && decide (0 ≤ p.1) && decide (0 ≤ p.2)

/-- The proximity test of `dedupe` (line 458): both coordinate distances
below `1e-6`. -/
def nearPoint (s p : Point) : Bool :=
  decide (|s.1 - p.1| < 1 / 1000000) && decide (|s.2 - p.2| < 1 / 1000000)

/-- The accumulating pass of `dedupe` (lines 455-463); `seen` is the array
built by `push`. -/
def dedupeGo : List Point → List Point → List Point
  | seen, [] => seen
  | seen, p :: rest =>
    if seen.any (fun s => nearPoint s p) then dedupeGo seen rest
    else dedupeGo (seen ++ [p]) rest

/-- `dedupe` (lines 455-463). -/
def dedupe (points : List Point) : List Point := dedupeGo [] points

/-- `intersection` (lines 445-453): 2×2 solve, `none` when the determinant's
magnitude is below `1e-8`. -/
def intersectionPt (c1 c2 : GConstraint) : Option Point :=
  let a1 := c1.coefficients.getD 0 0
  let b1 := c1.coefficients.getD 1 0
  let a2 := c2.coefficients.getD 0 0
  let b2 := c2.coefficients.getD 1 0
  let det := a1 * b2 - a2 * b1
  if |det| < 1 / 100000000 then none
  else some ((c1.rhs * b2 - c2.rhs * b1) / det, (a1 * c2.rhs - a2 * c1.rhs) / det)

/-- Candidate vertices (lines 375-389): origin, axis intercepts, pairwise
intersections. -/
def candidatePoints (cs : List GConstraint) : List Point :=
  let base : List Point := [((0 : ℚ), (0 : ℚ))]
  let axis := cs.foldl (fun acc c =>
    let a := c.coefficients.getD 0 0
    let b := c.coefficients.getD 1 0
    let acc := if a ≠ 0 then acc ++ [(c.rhs / a, (0 : ℚ))] else acc
    if b ≠ 0 then acc ++ [((0 : ℚ), c.rhs / b)] else acc) base
  let pairs := (List.range cs.length).flatMap (fun i =>
    (List.range cs.length).filterMap (fun j =>
      if i < j then intersectionPt (cs.getD i { coefficients := [], operator := leOp, rhs := 0 })
        (cs.getD j { coefficients := [], operator := leOp, rhs := 0 })
      else none))
  axis ++ pairs

/-- The deduplicated feasible vertex list (line 391-401). -/
def feasiblePoints (cs : List GConstraint) : List Point :=
  dedupe ((candidatePoints cs).filter (fun p => feasibleFilter cs p))

/-- The optimum scan (lines 403-417), with the accumulator
`(optimalPoint, optimalValue)` threaded explicitly. -/
def optimalScanGo (isMax : Bool) (objA objB : ℚ) :
    List Point → Option Point × ℚ → Option Point × ℚ
  | [], acc => acc
  | p :: rest, (none, _) =>
    optimalScanGo isMax objA objB rest (some p, objA * p.1 + objB * p.2)
  | p :: rest, (some q, v) =>
    if (if isMax then v < objA * p.1 + objB * p.2 else objA * p.1 + objB * p.2 < v) then
      optimalScanGo isMax objA objB rest (some p, objA * p.1 + objB * p.2)
    else optimalScanGo isMax objA objB rest (some q, v)

/-- The optimum scan started from `optimalPoint = null`, `optimalValue = 0`. -/
def optimalScan (isMax : Bool) (objA objB : ℚ) (ps : List Point) : Option Point × ℚ :=
  optimalScanGo isMax objA objB ps (none, 0)

end Graphical


/-!
Theorems.  First a collection of structural lemmas about the solver loop,
then one theorem per behavioural claim (with witnesses / counterexamples).
-/

namespace SimplexSolver

theorem annotateEntering_isOptimal (t : SimplexTableau) (e : Nat) :
    (annotateEntering t e).isOptimal = t.isOptimal := rfl

theorem annotateEntering_isUnbounded (t : SimplexTableau) (e : Nat) :
    (annotateEntering t e).isUnbounded = t.isUnbounded := rfl

theorem annotateLeaving_isOptimal (t : SimplexTableau) (l : Nat) :
    (annotateLeaving t l).isOptimal = t.isOptimal := rfl

theorem annotateLeaving_isUnbounded (t : SimplexTableau) (l : Nat) :
    (annotateLeaving t l).isUnbounded = t.isUnbounded := rfl

theorem pivotOperation_isOptimal (t : SimplexTableau) (r c : Nat) :
    (pivotOperation t r c).isOptimal = false := rfl

theorem pivotOperation_isUnbounded (t : SimplexTableau) (r c : Nat) :
    (pivotOperation t r c).isUnbounded = false := rfl

theorem coreEq_refl (a : SimplexTableau) : coreEq a a := ⟨rfl, rfl, rfl⟩

theorem coreEq_trans {a b c : SimplexTableau} (h1 : coreEq a b) (h2 : coreEq b c) :
    coreEq a c :=
  ⟨h1.1.trans h2.1, h1.2.1.trans h2.2.1, h1.2.2.trans h2.2.2⟩

theorem flagsOK_and (x : SimplexTableau) (h : flagsOK x = true) :
    (x.isOptimal && x.isUnbounded) = false := by
  cases hx : (x.isOptimal && x.isUnbounded)
  · rfl
  · exfalso
    simp [flagsOK, hx] at h

theorem solveLoop_hist_ne_nil : ∀ (fuel count : Nat) (cur : SimplexTableau),
    (solveLoop fuel count cur).1 ≠ [] := by
  intro fuel
  induction fuel with
  | zero => intro count cur; simp [solveLoop]
  | succ fuel ih =>
    intro count cur
    simp only [solveLoop]
    split
    · simp
    · split
      · simp
      · split
        · simp
        · simp

theorem solveLoop_hist_length : ∀ (fuel count : Nat) (cur : SimplexTableau),
    (solveLoop fuel count cur).1.length ≤ fuel + 1 := by
  intro fuel
  induction fuel with
  | zero => intro count cur; simp [solveLoop]
  | succ fuel ih =>
    intro count cur
    simp only [solveLoop]
    split
    · simp
    · split
      · simp
      · split
        · simp
        · simp only [List.length_cons]
          exact Nat.add_le_add_right (ih _ _) 1

theorem solveLoop_hist_last : ∀ (fuel count : Nat) (cur d : SimplexTableau),
    (solveLoop fuel count cur).1.getLastD d = (solveLoop fuel count cur).2.1 := by
  intro fuel
  induction fuel with
  | zero => intro count cur d; simp [solveLoop, List.getLastD_cons]
  | succ fuel ih =>
    intro count cur d
    simp only [solveLoop]
    split
    · simp [List.getLastD_cons]
    · split
      · simp [List.getLastD_cons]
      · split
        · simp [List.getLastD_cons]
        · rw [List.getLastD_cons]
          exact ih _ _ _

theorem solveLoop_flags : ∀ (fuel count : Nat) (cur : SimplexTableau),
    flagsOK cur = true →
    flagsOK (solveLoop fuel count cur).2.1 = true ∧
      ∀ t ∈ (solveLoop fuel count cur).1, flagsOK t = true := by
  intro fuel
  induction fuel with
  | zero =>
    intro count cur h
    refine ⟨h, ?_⟩
    intro t ht
    simp [solveLoop] at ht
    simpa [ht] using h
  | succ fuel ih =>
    intro count cur h
    simp only [solveLoop]
    split
    · refine ⟨h, ?_⟩
      intro t ht
      simp at ht
      simpa [ht] using h
    · rename_i hflag
      have hopt : cur.isOptimal = false := by
        cases ho : cur.isOptimal <;> simp [ho] at hflag ⊢
      have hunb : cur.isUnbounded = false := by
        cases hu : cur.isUnbounded <;> simp [hu] at hflag ⊢
      split
      · constructor
        · simp [flagsOK, hunb]
        · intro t ht
          simp at ht
          simp [ht, flagsOK, hunb]
      · split
        · constructor
          · simp [flagsOK, annotateEntering, hopt]
          · intro t ht
            simp at ht
            simp [ht, flagsOK, annotateEntering, hopt]
        · have hzz : ∀ (x : SimplexTableau), x.isUnbounded = false → flagsOK x = true := by
            intro x hx
            simp [flagsOK, hx]
          constructor
          · refine (ih _ _ ?_).1
            apply hzz
            split <;> rfl
          · intro t ht
            simp only [List.mem_cons] at ht
            rcases ht with ht | ht
            · simp [ht, flagsOK, annotateLeaving, annotateEntering, hopt, hunb]
            · refine (ih _ _ ?_).2 t ht
              apply hzz
              split <;> rfl

theorem solveLoop_chain : ∀ (fuel count : Nat) (cur : SimplexTableau),
    ∃ hd tl, (solveLoop fuel count cur).1 = hd :: tl ∧ coreEq hd cur ∧ chainFrom hd tl := by
  intro fuel
  induction fuel with
  | zero =>
    intro count cur
    exact ⟨cur, [], rfl, coreEq_refl cur, trivial⟩
  | succ fuel ih =>
    intro count cur
    simp only [solveLoop]
    split
    · exact ⟨cur, [], rfl, coreEq_refl cur, trivial⟩
    · split
      · exact ⟨_, [], rfl, ⟨rfl, rfl, rfl⟩, trivial⟩
      · split
        · exact ⟨_, [], rfl, ⟨rfl, rfl, rfl⟩, trivial⟩
        · obtain ⟨hd', tl', heq, hcore, hchain⟩ := ih (count + 1) _
          refine ⟨_, _, rfl, ⟨rfl, rfl, rfl⟩, ?_⟩
          rw [heq]
          refine ⟨⟨_, _, rfl, rfl, ?_⟩, hchain⟩
          refine coreEq_trans hcore ?_
          split
          · exact ⟨rfl, rfl, rfl⟩
          · exact ⟨rfl, rfl, rfl⟩

theorem solve_iterations_def (obj : List ℚ) (A : List (List ℚ)) (b : List ℚ)
    (isMax : Bool) (vars : List String) :
    (solve obj A b isMax vars).iterations =
      (solveLoop 50 0 (createInitialTableau (convertToStandardForm obj A b isMax vars))).1 := rfl

theorem solve_isOptimal_def (obj : List ℚ) (A : List (List ℚ)) (b : List ℚ)
    (isMax : Bool) (vars : List String) :
    (solve obj A b isMax vars).isOptimal =
      (solveLoop 50 0 (createInitialTableau (convertToStandardForm obj A b isMax vars))).2.1.isOptimal := rfl

theorem solve_isUnbounded_def (obj : List ℚ) (A : List (List ℚ)) (b : List ℚ)
    (isMax : Bool) (vars : List String) :
    (solve obj A b isMax vars).isUnbounded =
      (solveLoop 50 0 (createInitialTableau (convertToStandardForm obj A b isMax vars))).2.1.isUnbounded := rfl

/-- C4: for every input, the solution returned by `solve` has
`isFeasible = true`, unconditionally — the flag is hard-coded and feasibility
is never established. -/
theorem solve_isFeasible_unconditional (obj : List ℚ) (A : List (List ℚ)) (b : List ℚ)
    (isMax : Bool) (vars : List String) :
    (solve obj A b isMax vars).isFeasible = true := rfl

/-- C3: for every input, the iteration history of `solve` holds the initial
tableau plus at most 50 pivot results (the fixed cap), and the returned
optimal/unbounded flags are exactly the last stored tableau's flags — so a
run that exhausts the cap without reaching a terminal tableau is returned
with neither flag set.  (Termination itself is structural: the loop is fuelled
by `50 - iterationCount`.) -/
theorem solve_iteration_cap (obj : List ℚ) (A : List (List ℚ)) (b : List ℚ)
    (isMax : Bool) (vars : List String) :
    (solve obj A b isMax vars).iterations.length ≤ 51 ∧
    (solve obj A b isMax vars).iterations ≠ [] ∧
    (solve obj A b isMax vars).isOptimal =
      ((solve obj A b isMax vars).iterations.getLastD defaultTableau).isOptimal ∧
    (solve obj A b isMax vars).isUnbounded =
      ((solve obj A b isMax vars).iterations.getLastD defaultTableau).isUnbounded := by
  refine ⟨?_, ?_, ?_, ?_⟩
  · simpa [solve_iterations_def] using solveLoop_hist_length 50 0
      (createInitialTableau (convertToStandardForm obj A b isMax vars))
  · simpa [solve_iterations_def] using solveLoop_hist_ne_nil 50 0
      (createInitialTableau (convertToStandardForm obj A b isMax vars))
  · rw [solve_iterations_def, solveLoop_hist_last, solve_isOptimal_def]
  · rw [solve_iterations_def, solveLoop_hist_last, solve_isUnbounded_def]

/-- C10: in every returned solution the terminal flags are mutually
exclusive, both on the solution itself and on every tableau of the
iteration history. -/
theorem solve_flags_mutually_exclusive (obj : List ℚ) (A : List (List ℚ)) (b : List ℚ)
    (isMax : Bool) (vars : List String) :
    ((solve obj A b isMax vars).isOptimal && (solve obj A b isMax vars).isUnbounded) = false ∧
    (solve obj A b isMax vars).iterations.all flagsOK = true := by
  have h := solveLoop_flags 50 0
    (createInitialTableau (convertToStandardForm obj A b isMax vars)) (by rfl)
  constructor
  · rw [solve_isOptimal_def, solve_isUnbounded_def]
    exact flagsOK_and _ h.1
  · rw [solve_iterations_def, List.all_eq_true]
    exact h.2

/-- C2 (counterexample): on `maximize x1 subject to x1 ≤ 1` the tableau stored
at position 0 of the history differs from the value `createInitialTableau`
produced for it — the engine annotated the already-stored tableau in place
with the entering variable of the following pivot. -/
theorem iteration_history_mutation_cx :
    ((solve [1] [[1]] [1] true [nameX1]).iterations.getD 0 defaultTableau).enteringVariable =
      some nameX1 ∧
    (createInitialTableau (convertToStandardForm [1] [[1]] [1] true [nameX1])).enteringVariable =
      none ∧
    ¬((solve [1] [[1]] [1] true [nameX1]).iterations.getD 0 defaultTableau =
      createInitialTableau (convertToStandardForm [1] [[1]] [1] true [nameX1])) := by
  exact ⟨by decide, rfl, by decide⟩

/-- C2 (amended): pivoting always produces a new tableau value and the
matrix and variable lists of every stored tableau are never changed after
creation — each history entry agrees, on those fields, with
`createInitialTableau` or with `pivotOperation` of its predecessor at the
predecessor's recorded pivot position; only the annotation fields
(flags, pivot row/column, entering/leaving names, iteration index) of the
most recently stored tableau are written in place afterwards. -/
theorem iteration_history_core_chain (obj : List ℚ) (A : List (List ℚ)) (b : List ℚ)
    (isMax : Bool) (vars : List String) :
    ∃ hd tl, (solve obj A b isMax vars).iterations = hd :: tl ∧
      coreEq hd (createInitialTableau (convertToStandardForm obj A b isMax vars)) ∧
      chainFrom hd tl := by
  simpa [solve_iterations_def] using solveLoop_chain 50 0
    (createInitialTableau (convertToStandardForm obj A b isMax vars))

end SimplexSolver

namespace SimplexSolver

theorem getD_map_div (l : List ℚ) (p : ℚ) (j : Nat) :
    (l.map (fun x => x / p)).getD j 0 = l.getD j 0 / p := by
  simp only [List.getD_eq_getElem?_getD, List.getElem?_map]
  cases h : l[j]? <;> simp [zero_div]

theorem getD_range_map {α : Type} (f : Nat → α) (d : α) (n j : Nat) :
    ((List.range n).map f).getD j d = if j < n then f j else d := by
  simp only [List.getD_eq_getElem?_getD, List.getElem?_map]
  by_cases h : j < n
  · rw [List.getElem?_range h]
    simp [h]
  · rw [List.getElem?_eq_none (by simpa using Nat.le_of_not_lt h)]
    simp [h]

theorem rowAt_range_map (f : Nat → List ℚ) (n i : Nat) :
    rowAt ((List.range n).map f) i = if i < n then f i else [] := by
  simp only [rowAt, List.getD_eq_getElem?_getD, List.getElem?_map]
  by_cases h : i < n
  · rw [List.getElem?_range h]
    simp [h]
  · rw [List.getElem?_eq_none (by simpa using Nat.le_of_not_lt h)]
    simp [h]

theorem rowAt_mem (m : List (List ℚ)) (i : Nat) (h : i < m.length) :
    rowAt m i ∈ m := by
  rw [rowAt, List.getD_eq_getElem?_getD, List.getElem?_eq_getElem h]
  exact List.getElem_mem h

theorem pivotOperation_tableau (t : SimplexTableau) (pr pc : Nat) :
    (pivotOperation t pr pc).tableau =
      (List.range t.tableau.length).map (fun i =>
        if i = pr then (rowAt t.tableau pr).map (fun x => x / entryAt t.tableau pr pc)
        else (List.range (rowAt t.tableau i).length).map (fun j =>
          (rowAt t.tableau i).getD j 0 -
            (rowAt t.tableau i).getD pc 0 *
              ((rowAt t.tableau pr).map (fun x => x / entryAt t.tableau pr pc)).getD j 0)) := rfl

/-- C6: `pivotOperation` divides the pivot row by the pivot element, subtracts
`entry[i, pivotColumn] × normalizedPivotRow` from every other row, thereby
turning the pivot column into a unit vector (exactly 1 at the pivot row, 0
elsewhere), exchanges the single element at `pivotRow` of the basic-variable
list with the element at `pivotColumn` of the non-basic-variable list, and
returns a fresh tableau whose iteration counter is the predecessor's plus
one.  Stated for a well-formed tableau (rectangular matrix, in-range pivot
position, non-zero pivot element). -/
theorem pivotOperation_spec (t : SimplexTableau) (pr pc L : Nat)
    (hL : ∀ row ∈ t.tableau, row.length = L)
    (hpr : pr < t.tableau.length) (hpc : pc < L)
    (hp : entryAt t.tableau pr pc ≠ 0) :
    (pivotOperation t pr pc).tableau.length = t.tableau.length ∧
    (∀ j, entryAt (pivotOperation t pr pc).tableau pr j =
      entryAt t.tableau pr j / entryAt t.tableau pr pc) ∧
    (∀ i, i < t.tableau.length → i ≠ pr → ∀ j, j < L →
      entryAt (pivotOperation t pr pc).tableau i j =
        entryAt t.tableau i j -
          entryAt t.tableau i pc * (entryAt t.tableau pr j / entryAt t.tableau pr pc)) ∧
    entryAt (pivotOperation t pr pc).tableau pr pc = 1 ∧
    (∀ i, i < t.tableau.length → i ≠ pr →
      entryAt (pivotOperation t pr pc).tableau i pc = 0) ∧
    (pivotOperation t pr pc).basicVariables =
      t.basicVariables.set pr (t.nonBasicVariables.getD pc emptyName) ∧
    (pivotOperation t pr pc).nonBasicVariables =
      t.nonBasicVariables.set pc (t.basicVariables.getD pr emptyName) ∧
    (pivotOperation t pr pc).iteration = t.iteration + 1 := by
  have hrowlen : ∀ i, i < t.tableau.length → (rowAt t.tableau i).length = L := by
    intro i hi
    exact hL (rowAt t.tableau i) (rowAt_mem t.tableau i hi)
  have hpivotrow : ∀ j, entryAt (pivotOperation t pr pc).tableau pr j =
      entryAt t.tableau pr j / entryAt t.tableau pr pc := by
    intro j
    rw [entryAt, pivotOperation_tableau, rowAt_range_map, if_pos hpr, if_pos rfl]
    exact getD_map_div _ _ _
  have hother : ∀ i, i < t.tableau.length → i ≠ pr → ∀ j, j < L →
      entryAt (pivotOperation t pr pc).tableau i j =
        entryAt t.tableau i j -
          entryAt t.tableau i pc * (entryAt t.tableau pr j / entryAt t.tableau pr pc) := by
    intro i hi hne j hj
    rw [entryAt, pivotOperation_tableau, rowAt_range_map, if_pos hi, if_neg hne]
    rw [getD_range_map, if_pos (by rw [hrowlen i hi]; exact hj), getD_map_div]
    rfl
  refine ⟨?_, hpivotrow, hother, ?_, ?_, rfl, rfl, rfl⟩
  · rw [pivotOperation_tableau]
    simp
  · rw [hpivotrow pc, div_self hp]
  · intro i hi hne
    rw [hother i hi hne pc hpc, div_self hp, mul_one, sub_self]

/-- C6 (witness): the specification instantiated on a concrete 2×3 tableau
pivoting at position (0, 0), whose pivot element is 2. -/
theorem pivotOperation_spec_witness :
    entryAt (pivotOperation sampleTableau 0 0).tableau 0 0 = 1 ∧
    (pivotOperation sampleTableau 0 0).iteration = 1 ∧
    entryAt (pivotOperation sampleTableau 0 0).tableau 1 0 = 0 := by
  have h := pivotOperation_spec sampleTableau 0 0 3 (by decide) (by decide) (by decide)
    (by decide)
  exact ⟨h.2.2.2.1, h.2.2.2.2.2.2.2, h.2.2.2.2.1 1 (by decide) (by decide)⟩

end SimplexSolver

/-- C7: for a solution with non-empty iteration history,
`performSensitivityAnalysis` returns one shadow price per entry of the
initial tableau's basic-variable list (the constraint count) — constraint
`i`'s price being the negation of the final tableau's objective-row entry at
column `numOriginalVars + i`, labeled with the initial tableau's `i`-th
basic-variable name, falling back to `s{i+1}` when that name is absent
(JS-falsy) — and one reduced cost per entry of the initial tableau's
non-basic-variable list (the original-variable count), variable `i`'s cost
being the final objective row's entry at column `i` labeled with the initial
tableau's `i`-th non-basic-variable name.  The function is pure, so the
solution is not mutated. -/
theorem performSensitivityAnalysis_spec (s : SimplexSolver.SimplexSolution)
    (hne : s.iterations ≠ []) :
    (performSensitivityAnalysis s).shadowPrices.length =
      (s.iterations.getD 0 SimplexSolver.defaultTableau).basicVariables.length ∧
    (performSensitivityAnalysis s).reducedCosts.length =
      (s.iterations.getD 0 SimplexSolver.defaultTableau).nonBasicVariables.length ∧
    (∀ i, i < (s.iterations.getD 0 SimplexSolver.defaultTableau).basicVariables.length →
      (performSensitivityAnalysis s).shadowPrices.getD i (emptyName, 0) =
        ((if (s.iterations.getD 0 SimplexSolver.defaultTableau).basicVariables.getD i emptyName =
              emptyName
          then slackName i
          else (s.iterations.getD 0 SimplexSolver.defaultTableau).basicVariables.getD i emptyName),
         -((SimplexSolver.objectiveRow (s.iterations.getLastD SimplexSolver.defaultTableau)).getD
            ((s.iterations.getD 0 SimplexSolver.defaultTableau).nonBasicVariables.length + i) 0))) ∧
    (∀ i, i < (s.iterations.getD 0 SimplexSolver.defaultTableau).nonBasicVariables.length →
      (performSensitivityAnalysis s).reducedCosts.getD i (emptyName, 0) =
        ((s.iterations.getD 0 SimplexSolver.defaultTableau).nonBasicVariables.getD i emptyName,
         (SimplexSolver.objectiveRow (s.iterations.getLastD SimplexSolver.defaultTableau)).getD i 0)) := by
  refine ⟨?_, ?_, ?_, ?_⟩
  · simp [performSensitivityAnalysis]
  · simp [performSensitivityAnalysis]
  · intro i hi
    simp only [performSensitivityAnalysis, SimplexSolver.getD_range_map, if_pos hi]
  · intro i hi
    simp only [performSensitivityAnalysis, SimplexSolver.getD_range_map, if_pos hi]

/-- C7 (witness): the specification instantiated on a concrete one-tableau
solution with one constraint and one original variable. -/
theorem performSensitivityAnalysis_spec_witness :
    (performSensitivityAnalysis SimplexSolver.sampleSolution).shadowPrices.length = 1 := by
  have h := performSensitivityAnalysis_spec SimplexSolver.sampleSolution (by decide)
  rw [h.1]
  decide

namespace SimplexSolver

theorem getD_zero_of_all (l : List ℚ) (h : ∀ x ∈ l, x = 0) (i : Nat) : l.getD i 0 = 0 := by
  rw [List.getD_eq_getElem?_getD]
  cases hx : l[i]? with
  | none => rfl
  | some a => simpa using h a (List.getElem?_mem hx)

theorem getLastD_zero_of_all (l : List ℚ) (h : ∀ x ∈ l, x = 0) : l.getLastD 0 = 0 := by
  rw [List.getLastD_eq_getLast?]
  cases hx : l.getLast? with
  | none => rfl
  | some a =>
    rw [List.getLast?_eq_getElem?] at hx
    simpa using h a (List.getElem?_mem hx)

theorem getLastD_map_div_zero (l : List ℚ) (p : ℚ) (h : l.getLastD 0 = 0) :
    (l.map (fun x => x / p)).getLastD 0 = 0 := by
  cases l with
  | nil => rfl
  | cons a l =>
    rw [List.map_cons, List.getLastD_cons, List.getLastD_map]
    rw [List.getLastD_cons] at h
    rw [h]
    exact zero_div p

theorem getLastD_range_map {α : Type} (f : Nat → α) (d : α) (n : Nat) :
    ((List.range n).map f).getLastD d = if n = 0 then d else f (n - 1) := by
  cases n with
  | zero => rfl
  | succ n =>
    rw [if_neg (Nat.succ_ne_zero n), List.range_succ, List.map_append]
    simp

theorem getD_length_sub_one (l : List ℚ) (h : l ≠ []) :
    l.getD (l.length - 1) 0 = l.getLastD 0 := by
  rw [List.getD_eq_getElem?_getD, List.getLastD_eq_getLast?, List.getLast?_eq_getElem?]

theorem rowAt_eq_nil_of_ge (m : List (List ℚ)) (i : Nat) (h : m.length ≤ i) :
    rowAt m i = [] := by
  rw [rowAt, List.getD_eq_getElem?_getD, List.getElem?_eq_none h]
  rfl

theorem pivotOperation_zeroLast (t : SimplexTableau) (pr pc L : Nat)
    (h : zeroLastColumn L t.tableau) :
    zeroLastColumn L (pivotOperation t pr pc).tableau := by
  intro row hrow
  rw [pivotOperation_tableau] at hrow
  obtain ⟨i, hi, hrow⟩ := List.mem_map.mp hrow
  rw [List.mem_range] at hi
  by_cases hipr : i = pr
  · subst hipr
    rw [if_pos rfl] at hrow
    obtain ⟨hlen, hlast⟩ := h _ (rowAt_mem t.tableau i hi)
    constructor
    · rw [← hrow, List.length_map]
      exact hlen
    · rw [← hrow]
      exact getLastD_map_div_zero _ _ hlast
  · rw [if_neg hipr] at hrow
    obtain ⟨hlen, hlast⟩ := h _ (rowAt_mem t.tableau i hi)
    refine ⟨by rw [← hrow, List.length_map, List.length_range]; exact hlen, ?_⟩
    rw [← hrow, getLastD_range_map]
    by_cases hL0 : (rowAt t.tableau i).length = 0
    · rw [if_pos hL0]
    · rw [if_neg hL0]
      have hnonnil : rowAt t.tableau i ≠ [] := by
        intro hnil
        rw [hnil] at hL0
        exact hL0 rfl
      have h1 : (rowAt t.tableau i).getD ((rowAt t.tableau i).length - 1) 0 = 0 := by
        rw [getD_length_sub_one _ hnonnil]
        exact hlast
      have h2 : ((rowAt t.tableau pr).map (fun x => x / entryAt t.tableau pr pc)).getD
          ((rowAt t.tableau i).length - 1) 0 = 0 := by
        rw [getD_map_div]
        by_cases hprlen : pr < t.tableau.length
        · obtain ⟨hlenp, hlastp⟩ := h _ (rowAt_mem t.tableau pr hprlen)
          have hpnonnil : rowAt t.tableau pr ≠ [] := by
            intro hnil
            rw [hnil] at hlenp
            rw [hlen] at hL0
            simp at hlenp
            omega
          have hidx : (rowAt t.tableau i).length - 1 = (rowAt t.tableau pr).length - 1 := by
            rw [hlen, hlenp]
          rw [hidx, getD_length_sub_one _ hpnonnil, hlastp, zero_div]
        · rw [rowAt_eq_nil_of_ge t.tableau pr (Nat.le_of_not_lt hprlen)]
          simp
      rw [h1, h2, mul_zero, sub_zero]

end SimplexSolver

namespace SimplexSolver

theorem solveLoop_zeroLast (L : Nat) : ∀ (fuel count : Nat) (cur : SimplexTableau),
    zeroLastColumn L cur.tableau →
    zeroLastColumn L (solveLoop fuel count cur).2.1.tableau := by
  intro fuel
  induction fuel with
  | zero => intro count cur h; exact h
  | succ fuel ih =>
    intro count cur h
    simp only [solveLoop]
    split
    · exact h
    · split
      · exact h
      · split
        · exact h
        · refine ih _ _ ?_
          split
          · exact pivotOperation_zeroLast _ _ _ _ h
          · exact pivotOperation_zeroLast _ _ _ _ h

theorem convertToStandardForm_row_length (obj : List ℚ) (A : List (List ℚ)) (b : List ℚ)
    (isMax : Bool) (vars : List String)
    (hA : ∀ row ∈ A, row.length = obj.length) :
    ∀ row ∈ (convertToStandardForm obj A b isMax vars).constraintMatrix,
      row.length = obj.length + A.length := by
  intro row hrow
  have hcm : (convertToStandardForm obj A b isMax vars).constraintMatrix =
      A.enum.map (fun p =>
        p.2 ++ (List.range A.length).map (fun j => if p.1 = j then (1 : ℚ) else 0)) := rfl
  rw [hcm] at hrow
  obtain ⟨q, hq, hqrow⟩ := List.mem_map.mp hrow
  have hq2 : q.2 ∈ A := List.getElem?_mem (List.mem_enum_iff_getElem?.mp hq)
  rw [← hqrow, List.length_append, List.length_map, List.length_range, hA q.2 hq2]

theorem createInitialTableau_zeroLast (obj : List ℚ) (A : List (List ℚ)) (b : List ℚ)
    (isMax : Bool) (vars : List String)
    (hA : ∀ row ∈ A, row.length = obj.length) (hb : ∀ x ∈ b, x = 0) :
    zeroLastColumn (obj.length + A.length + 1)
      (createInitialTableau (convertToStandardForm obj A b isMax vars)).tableau := by
  intro row hrow
  have ht : (createInitialTableau (convertToStandardForm obj A b isMax vars)).tableau =
      (convertToStandardForm obj A b isMax vars).constraintMatrix.enum.map
        (fun p => p.2 ++ [(convertToStandardForm obj A b isMax vars).rhsVector.getD p.1 0])
        ++ [(convertToStandardForm obj A b isMax vars).objectiveCoefficients.map
              (fun c => -c) ++ [(0 : ℚ)]] := rfl
  rw [ht, List.mem_append] at hrow
  rcases hrow with hrow | hrow
  · obtain ⟨q, hq, hqrow⟩ := List.mem_map.mp hrow
    have hq2 : q.2 ∈ (convertToStandardForm obj A b isMax vars).constraintMatrix :=
      List.getElem?_mem (List.mem_enum_iff_getElem?.mp hq)
    constructor
    · rw [← hqrow, List.length_append]
      rw [convertToStandardForm_row_length obj A b isMax vars hA q.2 hq2]
      rfl
    · rw [← hqrow, List.getLastD_concat]
      exact getD_zero_of_all b hb q.1
  · rw [List.mem_singleton] at hrow
    constructor
    · rw [hrow, List.length_append, List.length_map]
      have hoc : (convertToStandardForm obj A b isMax vars).objectiveCoefficients =
          (if isMax then obj else obj.map (fun c => -c)) ++ List.replicate A.length (0 : ℚ) := rfl
      rw [hoc, List.length_append, List.length_replicate]
      cases isMax <;> simp
    · rw [hrow, List.getLastD_concat]

theorem extractSolution_fst (t : SimplexTableau) (ov : List String) :
    (extractSolution t ov true).1 = (rhsColumn t).getLastD 0 := rfl

theorem solve_optimalValue_def (obj : List ℚ) (A : List (List ℚ)) (b : List ℚ)
    (isMax : Bool) (vars : List String) :
    (solve obj A b isMax vars).optimalValue =
      (extractSolution
        (solveLoop 50 0 (createInitialTableau (convertToStandardForm obj A b isMax vars))).2.1
        (convertToStandardForm obj A b isMax vars).originalVariables isMax).1 := rfl

/-- C9 (counterexample): `maximize 3x1 + 5x2 subject to x1 ≤ 0, x2 ≤ 0` has
all right-hand sides zero, yet the engine performs two degenerate pivots:
the history holds three tableaus (not one), and the initial tableau is not
optimal (its objective row still holds −3 and −5). -/
theorem zero_rhs_one_iteration_cx :
    (solve [3, 5] [[1, 0], [0, 1]] [0, 0] true [nameX1, nameX2]).iterations.length = 3 ∧
    isOptimalCheck
      ((solve [3, 5] [[1, 0], [0, 1]] [0, 0] true [nameX1, nameX2]).iterations.getD 0
        defaultTableau) = false ∧
    (solve [3, 5] [[1, 0], [0, 1]] [0, 0] true [nameX1, nameX2]).optimalValue = 0 := by
  refine ⟨by decide, by decide, by decide⟩

/-- C9 (amended): for every maximization problem with a well-formed
constraint matrix whose right-hand sides are all 0, `solve` returns
`optimalValue = 0` — but possibly after several degenerate pivots rather
than in one iteration, and the initial tableau need not already be optimal
(see the counterexample).  The zero right-hand-side column is invariant
under pivoting, so the objective cell stays 0 to the end. -/
theorem solve_zero_rhs_value (obj : List ℚ) (A : List (List ℚ)) (b : List ℚ)
    (vars : List String)
    (hA : ∀ row ∈ A, row.length = obj.length) (hb : ∀ x ∈ b, x = 0) :
    (solve obj A b true vars).optimalValue = 0 := by
  have hinit := createInitialTableau_zeroLast obj A b true vars hA hb
  have hfin := solveLoop_zeroLast (obj.length + A.length + 1) 50 0 _ hinit
  rw [solve_optimalValue_def, extractSolution_fst]
  apply getLastD_zero_of_all
  intro x hx
  rw [rhsColumn] at hx
  obtain ⟨row, hrow, hxeq⟩ := List.mem_map.mp hx
  rw [← hxeq]
  exact (hfin row hrow).2

/-- C9 (witness): the amended theorem applied to the concrete all-zero-rhs
problem of the counterexample. -/
theorem solve_zero_rhs_value_witness :
    (solve [3, 5] [[1, 0], [0, 1]] [0, 0] true [nameX1, nameX2]).optimalValue = 0 :=
  solve_zero_rhs_value [3, 5] [[1, 0], [0, 1]] [0, 0] [nameX1, nameX2]
    (by decide) (by decide)

end SimplexSolver

namespace SimplexSolver

theorem neg_one_ne_ofNat (k : Nat) : ¬((-1 : Int) = Int.ofNat k) := by
  intro h
  have h2 : (0 : Int) ≤ Int.ofNat k := Int.ofNat_nonneg k
  rw [← h] at h2
  norm_num at h2

theorem findLeavingAux_range'_spec (m : List (List ℚ)) (rhs : List ℚ) (ec : Nat) :
    ∀ (b a : Nat) (mr : Option ℚ) (best : Int),
    (match mr with
     | none => best = -1 ∧ ∀ i, i < a → ¬ 0 < entryAt m i ec
     | some r => ∃ k, best = Int.ofNat k ∧ k < a ∧ 0 < entryAt m k ec ∧
         rhs.getD k 0 / entryAt m k ec = r ∧
         (∀ i, i < a → 0 < entryAt m i ec →
           rhs.getD k 0 / entryAt m k ec ≤ rhs.getD i 0 / entryAt m i ec) ∧
         (∀ i, i < k → 0 < entryAt m i ec →
           rhs.getD k 0 / entryAt m k ec < rhs.getD i 0 / entryAt m i ec)) →
    ((findLeavingAux m rhs ec (List.range' a b) mr best = -1 →
        ∀ i, i < a + b → ¬ 0 < entryAt m i ec) ∧
      (∀ k : Nat, findLeavingAux m rhs ec (List.range' a b) mr best = Int.ofNat k →
        k < a + b ∧ 0 < entryAt m k ec ∧
        (∀ i, i < a + b → 0 < entryAt m i ec →
          rhs.getD k 0 / entryAt m k ec ≤ rhs.getD i 0 / entryAt m i ec) ∧
        (∀ i, i < k → 0 < entryAt m i ec →
          rhs.getD k 0 / entryAt m k ec < rhs.getD i 0 / entryAt m i ec))) := by
  intro b
  induction b with
  | zero =>
    intro a mr best hinv
    simp only [show List.range' a 0 = [] from rfl, findLeavingAux]
    cases mr with
    | none =>
      obtain ⟨hbest, hall⟩ := hinv
      constructor
      · intro _ i hi
        exact hall i (by omega)
      · intro k hk
        rw [hbest] at hk
        exact absurd hk (neg_one_ne_ofNat k)
    | some r =>
      obtain ⟨k, hbest, hka, hkpos, hkval, hkmin, hkstrict⟩ := hinv
      constructor
      · intro hbad
        rw [hbest] at hbad
        exact absurd hbad.symm (neg_one_ne_ofNat k)
      · intro k' hk'
        rw [hbest] at hk'
        have hkk : k = k' := by
          have := Int.ofNat.inj hk'
          exact this
        subst hkk
        exact ⟨by omega, hkpos, fun i hi hpi => hkmin i (by omega) hpi, hkstrict⟩
  | succ b ih =>
    intro a mr best hinv
    rw [List.range'_succ]
    have hidx : a + (b + 1) = (a + 1) + b := by omega
    rw [hidx]
    cases mr with
    | none =>
      obtain ⟨hbest, hall⟩ := hinv
      simp only [findLeavingAux]
      by_cases hpa : 0 < entryAt m a ec
      · rw [if_pos hpa]
        refine ih (a + 1) (some (rhs.getD a 0 / entryAt m a ec)) (Int.ofNat a) ?_
        refine ⟨a, rfl, by omega, hpa, rfl, ?_, ?_⟩
        · intro i hi hpi
          rcases Nat.lt_succ_iff_lt_or_eq.mp hi with h | h
          · exact absurd hpi (hall i h)
          · subst h
            exact le_refl _
        · intro i hi hpi
          exact absurd hpi (hall i hi)
      · rw [if_neg hpa]
        refine ih (a + 1) none best ?_
        refine ⟨hbest, ?_⟩
        intro i hi
        rcases Nat.lt_succ_iff_lt_or_eq.mp hi with h | h
        · exact hall i h
        · subst h
          exact hpa
    | some r =>
      obtain ⟨k, hbest, hka, hkpos, hkval, hkmin, hkstrict⟩ := hinv
      simp only [findLeavingAux]
      by_cases hpa : 0 < entryAt m a ec
      · rw [if_pos hpa]
        by_cases hlt : rhs.getD a 0 / entryAt m a ec < r
        · rw [if_pos hlt]
          refine ih (a + 1) (some (rhs.getD a 0 / entryAt m a ec)) (Int.ofNat a) ?_
          refine ⟨a, rfl, by omega, hpa, rfl, ?_, ?_⟩
          · intro i hi hpi
            rcases Nat.lt_succ_iff_lt_or_eq.mp hi with h | h
            · have hmin := hkmin i h hpi
              rw [hkval] at hmin
              exact le_trans (le_of_lt hlt) hmin
            · subst h
              exact le_refl _
          · intro i hi hpi
            have hmin := hkmin i hi hpi
            rw [hkval] at hmin
            exact lt_of_lt_of_le hlt hmin
        · rw [if_neg hlt]
          refine ih (a + 1) (some r) best ?_
          refine ⟨k, hbest, by omega, hkpos, hkval, ?_, hkstrict⟩
          intro i hi hpi
          rcases Nat.lt_succ_iff_lt_or_eq.mp hi with h | h
          · exact hkmin i h hpi
          · subst h
            rw [hkval]
            exact le_of_not_lt hlt
      · rw [if_neg hpa]
        refine ih (a + 1) (some r) best ?_
        refine ⟨k, hbest, by omega, hkpos, hkval, ?_, hkstrict⟩
        intro i hi hpi
        rcases Nat.lt_succ_iff_lt_or_eq.mp hi with h | h
        · exact hkmin i h hpi
        · subst h
          exact absurd hpi hpa

theorem findLeavingAux_shape (m : List (List ℚ)) (rhs : List ℚ) (ec : Nat) :
    ∀ (is : List Nat) (mr : Option ℚ) (best : Int),
    (best = -1 ∨ ∃ k : Nat, best = Int.ofNat k) →
    (findLeavingAux m rhs ec is mr best = -1 ∨
      ∃ k : Nat, findLeavingAux m rhs ec is mr best = Int.ofNat k) := by
  intro is
  induction is with
  | nil =>
    intro mr best h
    cases mr <;> exact h
  | cons i rest ih =>
    intro mr best h
    cases mr with
    | none =>
      simp only [findLeavingAux]
      by_cases hpi : 0 < entryAt m i ec
      · rw [if_pos hpi]
        exact ih _ _ (Or.inr ⟨i, rfl⟩)
      · rw [if_neg hpi]
        exact ih _ _ h
    | some r =>
      simp only [findLeavingAux]
      by_cases hpi : 0 < entryAt m i ec
      · rw [if_pos hpi]
        by_cases hlt : rhs.getD i 0 / entryAt m i ec < r
        · rw [if_pos hlt]
          exact ih _ _ (Or.inr ⟨i, rfl⟩)
        · rw [if_neg hlt]
          exact ih _ _ h
      · rw [if_neg hpi]
        exact ih _ _ h

end SimplexSolver

namespace SimplexSolver

/-- C5: the leaving variable is chosen by the minimum-ratio test.
Component 1: `findLeavingVariable` returns `-1` exactly when no constraint
row has a strictly positive entry in the entering column.  Component 2: when
it returns row `k`, that row has a strictly positive entry, minimises
`rhs[i] / entry[i, enteringColumn]` over all constraint rows with positive
entry, and is the first such row (every earlier positive-entry row has a
strictly larger ratio).  Component 3: when the test fails inside the solver
loop, the engine stores the current tableau with `isUnbounded = true` and
stops. -/
theorem findLeavingVariable_spec :
    (∀ (t : SimplexTableau) (ec : Nat),
      (findLeavingVariable t ec = -1 ↔
        ∀ i, i < (rhsColumn t).length - 1 → ¬ 0 < entryAt t.tableau i ec)) ∧
    (∀ (t : SimplexTableau) (ec : Nat) (k : Nat),
      findLeavingVariable t ec = Int.ofNat k →
      k < (rhsColumn t).length - 1 ∧ 0 < entryAt t.tableau k ec ∧
      (∀ i, i < (rhsColumn t).length - 1 → 0 < entryAt t.tableau i ec →
        (rhsColumn t).getD k 0 / entryAt t.tableau k ec ≤
          (rhsColumn t).getD i 0 / entryAt t.tableau i ec) ∧
      (∀ i, i < k → 0 < entryAt t.tableau i ec →
        (rhsColumn t).getD k 0 / entryAt t.tableau k ec <
          (rhsColumn t).getD i 0 / entryAt t.tableau i ec)) ∧
    (∀ (fuel count : Nat) (cur : SimplexTableau) (e : Nat),
      cur.isOptimal = false → cur.isUnbounded = false →
      findEnteringVariable cur = Int.ofNat e →
      findLeavingVariable (annotateEntering cur e) e = -1 →
      (solveLoop (fuel + 1) count cur).1 =
        [{ annotateEntering cur e with isUnbounded := true }] ∧
      (solveLoop (fuel + 1) count cur).2.1 =
        { annotateEntering cur e with isUnbounded := true }) := by
  have hbase : ∀ (t : SimplexTableau) (ec : Nat),
      (findLeavingVariable t ec = -1 →
        ∀ i, i < (rhsColumn t).length - 1 → ¬ 0 < entryAt t.tableau i ec) ∧
      (∀ k : Nat, findLeavingVariable t ec = Int.ofNat k →
        k < (rhsColumn t).length - 1 ∧ 0 < entryAt t.tableau k ec ∧
        (∀ i, i < (rhsColumn t).length - 1 → 0 < entryAt t.tableau i ec →
          (rhsColumn t).getD k 0 / entryAt t.tableau k ec ≤
            (rhsColumn t).getD i 0 / entryAt t.tableau i ec) ∧
        (∀ i, i < k → 0 < entryAt t.tableau i ec →
          (rhsColumn t).getD k 0 / entryAt t.tableau k ec <
            (rhsColumn t).getD i 0 / entryAt t.tableau i ec)) := by
    intro t ec
    have h := findLeavingAux_range'_spec t.tableau (rhsColumn t) ec
      ((rhsColumn t).length - 1) 0 none (-1)
      ⟨rfl, fun i hi => absurd hi (Nat.not_lt_zero i)⟩
    rw [findLeavingVariable, List.range_eq_range']
    constructor
    · intro hres i hi
      exact h.1 hres i (by omega)
    · intro k hres
      obtain ⟨h1, h2, h3, h4⟩ := h.2 k hres
      exact ⟨by omega, h2, fun i hi hpi => h3 i (by omega) hpi, h4⟩
  refine ⟨?_, fun t ec => (hbase t ec).2, ?_⟩
  · intro t ec
    constructor
    · exact (hbase t ec).1
    · intro hall
      rcases findLeavingAux_shape t.tableau (rhsColumn t) ec
        (List.range ((rhsColumn t).length - 1)) none (-1) (Or.inl rfl) with h | ⟨k, hk⟩
      · exact h
      · obtain ⟨h1, h2, _, _⟩ := (hbase t ec).2 k hk
        exact absurd h2 (hall k h1)
  · intro fuel count cur e hopt hunb hent hleave
    simp only [solveLoop]
    rw [hopt, hunb]
    rw [if_neg (by simp)]
    rw [hent]
    rw [if_neg (fun hbad => neg_one_ne_ofNat e hbad.symm)]
    rw [show (Int.ofNat e).toNat = e from rfl]
    rw [if_pos hleave]
    exact ⟨rfl, rfl⟩

/-- C5 (witness): on the concrete sample tableau with entering column 0, the
returned leaving row 0 has the positive pivot entry 2. -/
theorem findLeavingVariable_spec_witness :
    0 < entryAt sampleTableau.tableau 0 0 :=
  (findLeavingVariable_spec.2.1 sampleTableau 0 0 (by decide)).2.1

end SimplexSolver

namespace SimplexSolver

/-- C1 (code bug): the entering rule is supposed to scan the objective row
restricted to the currently non-basic columns, but `findEnteringVariable`
scans the fixed column positions `0 .. nonBasicVariables.length - 1`
instead.  On `maximize x1 + 2·x2 subject to x2 ≤ 4, x1 + 3·x2 ≤ 15, x1 ≤ 6`
the run reaches a tableau whose scanned columns 0 and 1 are both basic
(entries 0) while the non-basic slack `s1` has objective entry −1 in
column 2; the engine declares the tableau optimal — its own all-column
`isOptimal` check still returns `false` — and reports `optimalValue = 11`
although the feasible vertex `(6, 3)` attains 12. -/
theorem entering_rule_fixed_columns_bug :
    (solve [1, 2] [[0, 1], [1, 3], [1, 0]] [4, 15, 6] true [nameX1, nameX2]).isOptimal = true ∧
    (solve [1, 2] [[0, 1], [1, 3], [1, 0]] [4, 15, 6] true [nameX1, nameX2]).optimalValue = 11 ∧
    isOptimalCheck
      ((solve [1, 2] [[0, 1], [1, 3], [1, 0]] [4, 15, 6] true
        [nameX1, nameX2]).iterations.getLastD defaultTableau) = false ∧
    slackS1 ∈
      ((solve [1, 2] [[0, 1], [1, 3], [1, 0]] [4, 15, 6] true
        [nameX1, nameX2]).iterations.getLastD defaultTableau).nonBasicVariables ∧
    (objectiveRow
      ((solve [1, 2] [[0, 1], [1, 3], [1, 0]] [4, 15, 6] true
        [nameX1, nameX2]).iterations.getLastD defaultTableau)).getD 2 0 = -1 := by
  refine ⟨by decide, by decide, by decide, by decide, by decide⟩

end SimplexSolver

namespace Graphical

theorem satisfiesConstraint_iff (c : GConstraint) (p : Point) :
    satisfiesConstraint c p = true ↔ satisfiesConstraintP c p := by
  simp only [satisfiesConstraint, satisfiesConstraintP]
  split
  · exact decide_eq_true_iff
  · split
    · exact decide_eq_true_iff
    · exact decide_eq_true_iff

theorem feasibleFilter_iff (cs : List GConstraint) (p : Point) :
    feasibleFilter cs p = true ↔
      ((∀ c ∈ cs, satisfiesConstraintP c p) ∧ 0 ≤ p.1 ∧ 0 ≤ p.2) := by
  simp only [feasibleFilter, Bool.and_eq_true, List.all_eq_true, decide_eq_true_eq]
  constructor
  · rintro ⟨⟨h1, h2⟩, h3⟩
    exact ⟨fun c hc => (satisfiesConstraint_iff c p).mp (h1 c hc), h2, h3⟩
  · rintro ⟨h1, h2, h3⟩
    exact ⟨⟨fun c hc => (satisfiesConstraint_iff c p).mpr (h1 c hc), h2⟩, h3⟩

theorem nearPoint_self (p : Point) : nearPoint p p = true := by
  simp only [nearPoint, sub_self, abs_zero, Bool.and_eq_true, decide_eq_true_eq]
  norm_num

theorem dedupeGo_eq_append : ∀ (ps seen : List Point),
    ∃ ex, dedupeGo seen ps = seen ++ ex ∧ ex.Sublist ps := by
  intro ps
  induction ps with
  | nil =>
    intro seen
    exact ⟨[], by simp [dedupeGo], List.nil_sublist []⟩
  | cons p rest ih =>
    intro seen
    simp only [dedupeGo]
    by_cases hseen : seen.any (fun s => nearPoint s p) = true
    · rw [if_pos hseen]
      obtain ⟨ex, heq, hsub⟩ := ih seen
      exact ⟨ex, heq, hsub.cons p⟩
    · rw [if_neg hseen]
      obtain ⟨ex, heq, hsub⟩ := ih (seen ++ [p])
      refine ⟨p :: ex, ?_, hsub.cons₂ p⟩
      rw [heq, List.append_assoc]
      rfl

theorem dedupeGo_pairwise : ∀ (ps seen : List Point),
    seen.Pairwise (fun s t => nearPoint s t = false) →
    (dedupeGo seen ps).Pairwise (fun s t => nearPoint s t = false) := by
  intro ps
  induction ps with
  | nil => intro seen h; exact h
  | cons p rest ih =>
    intro seen h
    simp only [dedupeGo]
    by_cases hseen : seen.any (fun s => nearPoint s p) = true
    · rw [if_pos hseen]
      exact ih seen h
    · rw [if_neg hseen]
      refine ih (seen ++ [p]) ?_
      rw [List.pairwise_append]
      refine ⟨h, List.pairwise_singleton _ _, ?_⟩
      intro s hs t ht
      rw [List.mem_singleton] at ht
      subst ht
      cases hst : nearPoint s t
      · rfl
      · exact absurd (List.any_eq_true.mpr ⟨s, hs, hst⟩) hseen

theorem dedupeGo_cover : ∀ (ps seen : List Point) (p : Point),
    p ∈ ps → ∃ q ∈ dedupeGo seen ps, nearPoint q p = true := by
  intro ps
  induction ps with
  | nil =>
    intro seen p hp
    exact absurd hp (List.not_mem_nil p)
  | cons p0 rest ih =>
    intro seen p hp
    simp only [dedupeGo]
    rcases List.mem_cons.mp hp with heq | hmem
    · subst heq
      by_cases hseen : seen.any (fun s => nearPoint s p) = true
      · rw [if_pos hseen]
        obtain ⟨sq, hsq, hnear⟩ := List.any_eq_true.mp hseen
        obtain ⟨ex, heqq, _⟩ := dedupeGo_eq_append rest seen
        refine ⟨sq, ?_, hnear⟩
        rw [heqq]
        exact List.mem_append_left ex hsq
      · rw [if_neg hseen]
        obtain ⟨ex, heqq, _⟩ := dedupeGo_eq_append rest (seen ++ [p])
        refine ⟨p, ?_, nearPoint_self p⟩
        rw [heqq]
        exact List.mem_append_left ex (List.mem_append_right seen (List.mem_singleton.mpr rfl))
    · by_cases hseen : seen.any (fun s => nearPoint s p0) = true
      · rw [if_pos hseen]
        exact ih seen p hmem
      · rw [if_neg hseen]
        exact ih (seen ++ [p0]) p hmem

theorem dedupe_head (p : Point) (ps : List Point) :
    (dedupe (p :: ps)).head? = some p := by
  rw [dedupe]
  simp only [dedupeGo]
  rw [if_neg (by simp)]
  obtain ⟨ex, heq, _⟩ := dedupeGo_eq_append ps [p]
  simp only [List.nil_append]
  rw [heq]
  rfl

end Graphical

namespace Graphical

theorem optimalScanGo_spec (isMax : Bool) (a b : ℚ) :
    ∀ (ps : List Point) (q0 : Point),
    ∃ q pre post,
      optimalScanGo isMax a b ps (some q0, a * q0.1 + b * q0.2) =
        (some q, a * q.1 + b * q.2) ∧
      q0 :: ps = pre ++ q :: post ∧
      (∀ x ∈ q0 :: ps,
        (isMax = true → a * x.1 + b * x.2 ≤ a * q.1 + b * q.2) ∧
        (isMax = false → a * q.1 + b * q.2 ≤ a * x.1 + b * x.2)) ∧
      (∀ x ∈ pre,
        (isMax = true → a * x.1 + b * x.2 < a * q.1 + b * q.2) ∧
        (isMax = false → a * q.1 + b * q.2 < a * x.1 + b * x.2)) := by
  intro ps
  induction ps with
  | nil =>
    intro q0
    refine ⟨q0, [], [], rfl, rfl, ?_, by simp⟩
    intro x hx
    rw [List.mem_singleton] at hx
    subst hx
    exact ⟨fun _ => le_refl _, fun _ => le_refl _⟩
  | cons p rest ih =>
    intro q0
    simp only [optimalScanGo]
    by_cases hrep : (if isMax = true then a * q0.1 + b * q0.2 < a * p.1 + b * p.2
        else a * p.1 + b * p.2 < a * q0.1 + b * q0.2)
    · rw [if_pos hrep]
      obtain ⟨q, pre', post', heq, hdec, hmax, hstrict⟩ := ih p
      have hp_mem : p ∈ p :: rest := List.mem_cons_self p rest
      have hq0min : (isMax = true → a * q0.1 + b * q0.2 < a * q.1 + b * q.2) ∧
          (isMax = false → a * q.1 + b * q.2 < a * q0.1 + b * q0.2) := by
        constructor
        · intro hT
          rw [hT, if_pos rfl] at hrep
          exact lt_of_lt_of_le hrep ((hmax p hp_mem).1 hT)
        · intro hF
          rw [hF] at hrep
          rw [if_neg (by simp)] at hrep
          exact lt_of_le_of_lt ((hmax p hp_mem).2 hF) hrep
      refine ⟨q, q0 :: pre', post', heq, ?_, ?_, ?_⟩
      · rw [List.cons_append, hdec]
      · intro x hx
        rcases List.mem_cons.mp hx with hx0 | hx'
        · subst hx0
          exact ⟨fun hT => le_of_lt (hq0min.1 hT), fun hF => le_of_lt (hq0min.2 hF)⟩
        · exact hmax x hx'
      · intro x hx
        rcases List.mem_cons.mp hx with hx0 | hx'
        · subst hx0
          exact hq0min
        · exact hstrict x hx'
    · rw [if_neg hrep]
      obtain ⟨q, pre', post', heq, hdec, hmax, hstrict⟩ := ih q0
      have hkeep : (isMax = true → a * p.1 + b * p.2 ≤ a * q0.1 + b * q0.2) ∧
          (isMax = false → a * q0.1 + b * q0.2 ≤ a * p.1 + b * p.2) := by
        constructor
        · intro hT
          rw [hT, if_pos rfl] at hrep
          exact le_of_not_lt hrep
        · intro hF
          rw [hF] at hrep
          rw [if_neg (by simp)] at hrep
          exact le_of_not_lt hrep
      cases pre' with
      | nil =>
        rw [List.nil_append] at hdec
        injection hdec with h1 h2
        subst h1
        subst h2
        refine ⟨q0, [], p :: rest, heq, rfl, ?_, by simp⟩
        intro x hx
        rcases List.mem_cons.mp hx with hx0 | hx'
        · subst hx0
          exact ⟨fun _ => le_refl _, fun _ => le_refl _⟩
        · rcases List.mem_cons.mp hx' with hxp | hxr
          · subst hxp
            exact hkeep
          · exact hmax x (List.mem_cons_of_mem q0 hxr)
      | cons y pre'' =>
        rw [List.cons_append] at hdec
        injection hdec with h1 h2
        subst h1
        subst h2
        have hq0strict : (isMax = true → a * q0.1 + b * q0.2 < a * q.1 + b * q.2) ∧
            (isMax = false → a * q.1 + b * q.2 < a * q0.1 + b * q0.2) :=
          hstrict q0 (List.mem_cons_self q0 pre'')
        have hpstrict : (isMax = true → a * p.1 + b * p.2 < a * q.1 + b * q.2) ∧
            (isMax = false → a * q.1 + b * q.2 < a * p.1 + b * p.2) := by
          constructor
          · intro hT
            exact lt_of_le_of_lt (hkeep.1 hT) (hq0strict.1 hT)
          · intro hF
            exact lt_of_lt_of_le (hq0strict.2 hF) (hkeep.2 hF)
        refine ⟨q, q0 :: p :: pre'', post', heq, ?_, ?_, ?_⟩
        · rfl
        · intro x hx
          rcases List.mem_cons.mp hx with hx0 | hx'
          · subst hx0
            exact hmax x (List.mem_cons_self x _)
          · rcases List.mem_cons.mp hx' with hxp | hxr
            · subst hxp
              exact ⟨fun hT => le_of_lt (hpstrict.1 hT), fun hF => le_of_lt (hpstrict.2 hF)⟩
            · exact hmax x (List.mem_cons_of_mem q0 hxr)
        · intro x hx
          rcases List.mem_cons.mp hx with hx0 | hx'
          · subst hx0
            exact hq0strict
          · rcases List.mem_cons.mp hx' with hxp | hxr
            · subst hxp
              exact hpstrict
            · exact hstrict x (List.mem_cons_of_mem q0 hxr)

end Graphical

namespace Graphical

/-- C8: in the two-variable graphical solver —
(1) a candidate passes the feasibility filter iff it satisfies every
constraint's operator against its right-hand side within tolerance `1e-8`
and both coordinates are non-negative;
(2) the feasible vertex list is exactly the deduplication of the filtered
candidates;
(3) `dedupe` returns a subsequence of its input in which no two kept points
are within the per-coordinate tolerance `1e-6`, every input point is within
tolerance of some kept point, and the first point is always kept
(first-seen wins);
(4) the optimum scan of an empty list returns `(null, 0)`;
(5) on a non-empty list the scan returns a scanned point whose objective
value `objA·x + objB·y` is maximal (maximize) or minimal (minimize), and
every point scanned before it is strictly worse — i.e. the first point
becomes the incumbent unconditionally and a later point replaces the
incumbent only on strict improvement. -/
theorem computeGraphData_spec :
    (∀ (cs : List GConstraint) (p : Point),
      feasibleFilter cs p = true ↔
        ((∀ c ∈ cs, satisfiesConstraintP c p) ∧ 0 ≤ p.1 ∧ 0 ≤ p.2)) ∧
    (∀ cs : List GConstraint,
      feasiblePoints cs = dedupe ((candidatePoints cs).filter (fun p => feasibleFilter cs p))) ∧
    (∀ ps : List Point,
      (dedupe ps).Sublist ps ∧
      (dedupe ps).Pairwise (fun s t => nearPoint s t = false) ∧
      ∀ p ∈ ps, ∃ q ∈ dedupe ps, nearPoint q p = true) ∧
    (∀ (p : Point) (ps : List Point), (dedupe (p :: ps)).head? = some p) ∧
    (∀ (isMax : Bool) (a b : ℚ), optimalScan isMax a b [] = (none, 0)) ∧
    (∀ (isMax : Bool) (a b : ℚ) (p : Point) (ps : List Point),
      ∃ q pre post,
        optimalScan isMax a b (p :: ps) = (some q, a * q.1 + b * q.2) ∧
        p :: ps = pre ++ q :: post ∧
        (∀ x ∈ p :: ps,
          (isMax = true → a * x.1 + b * x.2 ≤ a * q.1 + b * q.2) ∧
          (isMax = false → a * q.1 + b * q.2 ≤ a * x.1 + b * x.2)) ∧
        (∀ x ∈ pre,
          (isMax = true → a * x.1 + b * x.2 < a * q.1 + b * q.2) ∧
          (isMax = false → a * q.1 + b * q.2 < a * x.1 + b * x.2))) := by
  refine ⟨feasibleFilter_iff, fun cs => rfl, ?_, dedupe_head, fun isMax a b => rfl, ?_⟩
  · intro ps
    refine ⟨?_, dedupeGo_pairwise ps [] List.Pairwise.nil, ?_⟩
    · obtain ⟨ex, heq, hsub⟩ := dedupeGo_eq_append ps []
      rw [dedupe, heq, List.nil_append]
      exact hsub
    · intro p hp
      exact dedupeGo_cover ps [] p hp
  · intro isMax a b p ps
    have hstart : optimalScan isMax a b (p :: ps) =
        optimalScanGo isMax a b ps (some p, a * p.1 + b * p.2) := rfl
    obtain ⟨q, pre, post, heq, hdec, hmax, hstrict⟩ := optimalScanGo_spec isMax a b ps p
    exact ⟨q, pre, post, hstart.trans heq, hdec, hmax, hstrict⟩

/-- C8 (witness): the filter characterisation instantiated at the origin
with no constraints, and the dedupe coverage at a concrete one-point list. -/
theorem computeGraphData_spec_witness :
    feasibleFilter [] ((0 : ℚ), (0 : ℚ)) = true ∧
    ∃ q ∈ dedupe [((0 : ℚ), (0 : ℚ))], nearPoint q ((0 : ℚ), (0 : ℚ)) = true := by
  constructor
  · exact (computeGraphData_spec.1 [] ((0 : ℚ), (0 : ℚ))).mpr
      ⟨fun c hc => absurd hc (List.not_mem_nil c), le_refl 0, le_refl 0⟩
  · exact (computeGraphData_spec.2.2.1 [((0 : ℚ), (0 : ℚ))]).2.2 ((0 : ℚ), (0 : ℚ))
      (List.mem_singleton.mpr rfl)

end Graphical
